import Mathlib

/-!
Verification of the palbart 2.5 PDP-8 cross assembler (src/palbart-2.5.c).

This file gives a shallow embedding, in Lean, of the parts of the assembler
engine that the specification's claims are about: the symbol attribute
lattice and `defineSymbol`, the conditional-assembly predicate
`M_DEFINED_CONDITIONALLY`, the object encoder (`punchObject`, `punchOrigin`,
`punchLocObject`, `punchLeader`, `punchChecksum`) with its running checksum,
the literal pools (`insertLiteral`, `punchLiteralPool`), the MRI address
resolution step of `getExprs`, the operator chain of `getExpr`, the `TEXT`
pseudo-op loop, the `SEGMNT` pseudo-op case, and the origin (`*expr`) case
of `onePass`.  Machine 12/16-bit words are embedded as `Int` (two's
complement bit operations) or, in the byte-oriented object encoder, as `Nat`
bit patterns with explicit reduction modulo 2^16; C arrays are embedded as
functions from `Int` so that the out-of-bounds behaviour of the literal pool
is expressible; output files are embedded as the list of bytes written.
-/

/-! ## Symbol attribute lattice (enum symtyp, palbart-2.5.c lines 246-259) -/

def UNDEFINED : Nat := 0o000

def DEFINED : Nat := 0o001

def FIXED : Nat := 0o002

def MRI : Nat := 0o004 ||| DEFINED

def LABEL : Nat := 0o010 ||| DEFINED

def REDEFINED : Nat := 0o020 ||| DEFINED

def DUPLICATE : Nat := 0o040 ||| DEFINED

def PSEUDO : Nat := 0o100 ||| FIXED ||| DEFINED

def CONDITION : Nat := 0o200 ||| DEFINED

/-- Attribute test `M_DEFINED` (line 202): `(s & DEFINED) == DEFINED`. -/
def M_DEFINED (s : Nat) : Bool := s &&& DEFINED == DEFINED

/-- Attribute test `M_FIXED` (line 204): `(s & FIXED) == FIXED`. -/
def M_FIXED (s : Nat) : Bool := s &&& FIXED == FIXED

/-- Attribute test `M_REDEFINED` (line 209). -/
def M_REDEFINED (s : Nat) : Bool := s &&& REDEFINED == REDEFINED

/-- Attribute test `M_CONDITIONAL` (line 201): `(s & CONDITION) == CONDITION`. -/
def M_CONDITIONAL (s : Nat) : Bool := s &&& CONDITION == CONDITION

/-- Macro `M_DEF` (line 213).  Note: the source defines it as `M_DEFINED`. -/
def M_DEF (s : Nat) : Bool := M_DEFINED s

/-- Macro `M_COND` (line 214).  Note: the source defines it as `M_DEFINED`,
not as `M_CONDITIONAL`; the CONDITION bit is never consulted. -/
def M_COND (s : Nat) : Bool := M_DEFINED s

/-- Macro `M_DEFINED_CONDITIONALLY` (line 215), the predicate used by the
IFDEF and IFNDEF pseudo-operators:
`((M_DEF(t)&&pass==1)||(!M_COND(t)&&pass==2))`. -/
def M_DEFINED_CONDITIONALLY (t : Nat) (pass : Nat) : Bool :=
  (M_DEF t && pass == 1) || (!M_COND t && pass == 2)

/-- Symbol table record `SYM_T` restricted to the fields `defineSymbol`
reads and writes (the name, concordance index and count are elided: the
claims under study do not mention them). -/
structure SYM_T where
  type : Nat
  val  : Nat
deriving DecidableEq, Repr

/-- Embedding of `defineSymbol` (lines 3004-3049), acting on the symbol
record that `lookup(name)` returned.  The returned `Bool` is true exactly
when the `redefined_symbol` diagnostic is issued.  The concordance update
(lines 3036-3043) touches only the cross-reference table and is elided.
Note the source order: the `M_REDEFINED` test that guards the diagnostic
runs before `REDEFINED` is OR-ed into `type`. -/
def defineSymbol (pass : Nat) (sym : SYM_T) (val : Nat) (type : Nat) :
    SYM_T × Bool :=
  if M_FIXED sym.type then (sym, false)
  else
    let redef := M_DEFINED sym.type && pass == 2 && decide (sym.val ≠ val)
    let reported := redef && M_REDEFINED sym.type
    let type1 := if redef then type ||| REDEFINED else type
    let newval := if type1 == LABEL then val else val &&& 0o7777
    let newtype := if pass == 1 then type1 ||| CONDITION else type1
    ({ type := newtype, val := newval }, reported)

/-! ## C1: the IFDEF/IFNDEF predicate across the two passes -/

/-- C1.  The claim states that for every symbol S the predicate used by
`IFDEF S` evaluates to the same truth value in pass 1 and in pass 2.  The
code contradicts this (and its own comment block at lines 238-245): since
`M_COND` is `M_DEFINED`, the pass-2 arm of `M_DEFINED_CONDITIONALLY` is
`!M_DEFINED`.  Concretely, after a pass-1 definition `A=1` the symbol holds
`DEFINED|CONDITION`, and after the same statement on pass 2 it holds
`DEFINED`; at an `IFDEF A` placed after that statement the predicate is
true on pass 1 and false on pass 2.  For a symbol never defined (type
`UNDEFINED` in both passes) the predicate is false on pass 1 and true on
pass 2. -/
theorem ifdef_inconsistent_between_passes :
    M_DEFINED_CONDITIONALLY (defineSymbol 1 ⟨UNDEFINED, 0⟩ 1 DEFINED).1.type 1
        = true ∧
    M_DEFINED_CONDITIONALLY
        (defineSymbol 2 (defineSymbol 1 ⟨UNDEFINED, 0⟩ 1 DEFINED).1 1
          DEFINED).1.type 2 = false ∧
    M_DEFINED_CONDITIONALLY UNDEFINED 1 = false ∧
    M_DEFINED_CONDITIONALLY UNDEFINED 2 = true := by
  decide

/-! ## C5: reporting of symbol redefinition on pass 2 -/

/-- C5 counterexample.  The claim states that the first pass-2 redefinition
of a non-FIXED DEFINED symbol with a differing value reports
`redefined_symbol` and that later redefinitions are suppressed.  On the
code the first redefinition is silent (the guard `M_REDEFINED(sym->type)`
is still false) and the second one reports. -/
theorem defineSymbol_first_redefinition_silent :
    (defineSymbol 2 ⟨DEFINED, 1⟩ 2 DEFINED).2 = false ∧
    (defineSymbol 2 (defineSymbol 2 ⟨DEFINED, 1⟩ 2 DEFINED).1 3
      DEFINED).2 = true := by
  decide

/-- Helper: OR-ing a mask in and then AND-ing with it recovers the mask. -/
theorem lor_land_self (a b : Nat) : (a ||| b) &&& b = b := by
  apply Nat.eq_of_testBit_eq
  intro i
  rw [Nat.testBit_land, Nat.testBit_lor]
  cases a.testBit i <;> cases b.testBit i <;> rfl

/-- C5 amended.  On pass 2, applying `defineSymbol` to a non-FIXED symbol
that is already DEFINED with a value differing from the stored one marks
the symbol REDEFINED, and the `redefined_symbol` diagnostic is issued
exactly when the REDEFINED flag is already set: the first redefinition of a
symbol is silent and every later redefinition of the same symbol is
reported. -/
theorem defineSymbol_redefinition_reporting (sym : SYM_T) (v t : Nat)
    (hfix : M_FIXED sym.type = false) (hdef : M_DEFINED sym.type = true)
    (hne : sym.val ≠ v) :
    (defineSymbol 2 sym v t).2 = M_REDEFINED sym.type ∧
    M_REDEFINED (defineSymbol 2 sym v t).1.type = true := by
  constructor
  · simp [defineSymbol, hfix, hdef, hne]
  · simp [defineSymbol, hfix, hdef, hne, M_REDEFINED, lor_land_self]

/-- Witness for `defineSymbol_redefinition_reporting` at the concrete
symbol with type DEFINED and stored value 1, redefined to 2. -/
theorem defineSymbol_redefinition_reporting_witness :
    (M_FIXED DEFINED = false ∧ M_DEFINED DEFINED = true ∧
      (⟨DEFINED, 1⟩ : SYM_T).val ≠ 2) ∧
    ((defineSymbol 2 ⟨DEFINED, 1⟩ 2 DEFINED).2 = M_REDEFINED DEFINED ∧
      M_REDEFINED (defineSymbol 2 ⟨DEFINED, 1⟩ 2 DEFINED).1.type = true) :=
  ⟨by decide,
   defineSymbol_redefinition_reporting ⟨DEFINED, 1⟩ 2 DEFINED (by decide)
     (by decide) (by decide)⟩

/-! ## Object encoder (punchObject and friends, lines 2537-2636)

The object file is embedded as the list of 8-bit frames written to it, and
the `WORD16 checksum` accumulator as its 16-bit bit pattern, a natural
number below 2^16 (C signed-short overflow wraps in two's complement; the
low 6 and bits 6-11 that the encoder extracts from the accumulator do not
depend on the sign interpretation). -/

/-- Object encoder state: the running `checksum` accumulator pattern, the
frames written to the object file so far, and `binary_data_output`. -/
structure PunchState where
  checksum : Nat
  frames   : List Nat
  binary_data_output : Bool
deriving DecidableEq, Repr

/-- Initial encoder state (checksum reset, nothing punched). -/
def initPunch : PunchState := { checksum := 0, frames := [], binary_data_output := false }

/-- Embedding of `punchObject` (lines 2595-2604): mask the value to 8 bits
(`val &= 0377`), write the frame, add it into the checksum, and record that
binary data has been output.  The 16-bit accumulator wrap is made explicit
with a reduction modulo 2^16. -/
def punchObject (st : PunchState) (v : Nat) : PunchState :=
  let v := v &&& 0o377
  { checksum := (st.checksum + v) % 65536
    frames := st.frames ++ [v]
    binary_data_output := true }

/-- Embedding of `punchOrigin` (lines 2581-2585): two frames,
`((loc>>6)&077)|0100` then `loc&077`, both through `punchObject`. -/
def punchOrigin (st : PunchState) (loc : Nat) : PunchState :=
  punchObject (punchObject st (((loc >>> 6) &&& 0o77) ||| 0o100)) (loc &&& 0o77)

/-- Embedding of `punchLocObject` (lines 2628-2636): origin first when in
RIM mode, then the two data frames of the word. -/
def punchLocObject (rim_mode : Bool) (st : PunchState) (loc val : Nat) :
    PunchState :=
  let st := if rim_mode then punchOrigin st loc else st
  punchObject (punchObject st ((val >>> 6) &&& 0o77)) (val &&& 0o77)

/-- Embedding of `punchLeader` (lines 2557-2571): `count` frames of 0200
written with `fputc`, bypassing `punchObject` and hence the checksum; a
zero count means the default of 240 frames. -/
def punchLeader (st : PunchState) (count : Nat) : PunchState :=
  { st with frames :=
      st.frames ++ List.replicate (if count == 0 then 240 else count) 0o200 }

/-- Embedding of `punchChecksum` (lines 2537-2546): in BIN mode with data
output, punch the accumulator as a word, then reset. -/
def punchChecksum (rim_mode : Bool) (st : PunchState) : PunchState :=
  let st :=
    if st.binary_data_output && !rim_mode then punchLocObject rim_mode st 0 st.checksum
    else st
  { st with binary_data_output := false, checksum := 0 }

/-- Embedding of the FIELD frame punch of the FIELD pseudo-op case (lines
3403-3405): punch `((newfield&0007)<<3)|00300` and then subtract it back
out of the checksum (`checksum -= value`), again with the 16-bit wrap made
explicit. -/
def punchFieldFrame (st : PunchState) (newfield : Nat) : PunchState :=
  let value := ((newfield &&& 0o007) <<< 3) ||| 0o300
  let st := punchObject st value
  { st with checksum := (st.checksum + (65536 - value % 65536)) % 65536 }

/-- A BIN-mode punching event: a word punched at a location
(`punchLocObject` with `rim_mode` false), an explicit origin
(`punchOrigin`), a FIELD-select frame, or leader tape.  Any BIN assembly
punches some sequence of these between two checksum resets. -/
inductive PunchOp where
  | word (loc val : Nat)
  | origin (loc : Nat)
  | fieldSel (f : Nat)
  | leader (n : Nat)
deriving DecidableEq, Repr

/-- Run a sequence of BIN-mode punching events. -/
def runPunch (st : PunchState) : List PunchOp → PunchState
  | [] => st
  | PunchOp.word loc val :: ops => runPunch (punchLocObject false st loc val) ops
  | PunchOp.origin loc :: ops => runPunch (punchOrigin st loc) ops
  | PunchOp.fieldSel f :: ops => runPunch (punchFieldFrame st f) ops
  | PunchOp.leader n :: ops => runPunch (punchLeader st n) ops

/-- Sum of the two frames of each origin event. -/
def originFrameSum : List PunchOp → Nat
  | [] => 0
  | PunchOp.origin loc :: ops =>
      ((((loc >>> 6) &&& 0o77) ||| 0o100) + (loc &&& 0o77)) + originFrameSum ops
  | _ :: ops => originFrameSum ops

/-- Sum of the two data frames of each word event. -/
def dataFrameSum : List PunchOp → Nat
  | [] => 0
  | PunchOp.word _ val :: ops =>
      (((val >>> 6) &&& 0o77) + (val &&& 0o77)) + dataFrameSum ops
  | _ :: ops => dataFrameSum ops

/-- Sum of the FIELD-select frames. -/
def fieldFrameSum : List PunchOp → Nat
  | [] => 0
  | PunchOp.fieldSel f :: ops =>
      (((f &&& 0o007) <<< 3) ||| 0o300) + fieldFrameSum ops
  | _ :: ops => fieldFrameSum ops

/-- The two frames that `punchChecksum` punches in BIN mode
(`punchLocObject( 0, checksum )`). -/
def checksumFrames (st : PunchState) : List Nat :=
  [(st.checksum >>> 6) &&& 0o77, st.checksum &&& 0o77]

/-- The 12-bit word encoded by the two checksum frames. -/
def checksumWordOf (st : PunchState) : Nat :=
  ((st.checksum >>> 6) &&& 0o77) * 64 + (st.checksum &&& 0o77)

/-- The checksum value asserted by the claim, read literally: the sum of
every data frame and origin frame, minus the sum of every FIELD-select
frame, modulo 4096.  This definition follows the specification's words and
is compared against the encoder embedded from the source. -/
def specClaimedChecksum (ops : List PunchOp) : Int :=
  ((dataFrameSum ops + originFrameSum ops : Int) - fieldFrameSum ops) % 4096

/-- Helper: AND with a low bit mask is reduction modulo the following power
of two. -/
theorem land_mask_mod (a n : Nat) : a &&& (2 ^ n - 1) = a % 2 ^ n :=
  Nat.and_pow_two_sub_one_eq_mod a n

/-- Helper: AND with 63 is reduction modulo 64. -/
theorem land63 (a : Nat) : a &&& 63 = a % 64 := by
  simpa using land_mask_mod a 6

/-- Helper: AND with 255 leaves a byte-sized value unchanged. -/
theorem land255_small (a : Nat) (h : a < 256) : a &&& 255 = a := by
  have := land_mask_mod a 8
  simp at this
  omega

/-- Helper: the frames an encoder event passes to `punchObject` are already
byte sized. -/
theorem frame_small (x : Nat) : x &&& 0o77 < 256 ∧ ((x &&& 0o77) ||| 0o100) < 256 := by
  have h1 : x &&& 0o77 ≤ 63 := Nat.and_le_right
  constructor
  · omega
  · have h2 : x &&& 0o77 < 2 ^ 8 := by omega
    have h3 : (0o100 : Nat) < 2 ^ 8 := by norm_num
    have := Nat.or_lt_two_pow h2 h3
    simpa using this

/-- Helper: checksum effect of one `punchObject` call. -/
theorem punchObject_checksum_eq (st : PunchState) (v : Nat) :
    (punchObject st v).checksum = (st.checksum + (v &&& 0o377)) % 65536 := rfl

/-- Helper: the running checksum after a sequence of BIN-mode events is the
16-bit wrap of the starting accumulator plus all data and origin frames;
FIELD-select frames and leader frames contribute nothing net. -/
theorem runPunch_checksum (ops : List PunchOp) : ∀ st : PunchState,
    st.checksum < 65536 →
    (runPunch st ops).checksum
      = (st.checksum + (dataFrameSum ops + originFrameSum ops)) % 65536 := by
  induction ops with
  | nil =>
      intro st h
      simp [runPunch, dataFrameSum, originFrameSum, Nat.mod_eq_of_lt h]
  | cons op ops ih =>
      intro st h
      cases op with
      | word loc val =>
          have hf1 : (val >>> 6) &&& 0o77 < 256 := (frame_small (val >>> 6)).1
          have hf2 : val &&& 0o77 < 256 := (frame_small val).1
          rw [runPunch, ih _ (by simp [punchLocObject, punchObject]; omega)]
          simp only [punchLocObject, Bool.false_eq_true, if_false,
            punchObject_checksum_eq, land255_small _ hf1, land255_small _ hf2,
            dataFrameSum, originFrameSum]
          omega
      | origin loc =>
          have hf1 : ((loc >>> 6) &&& 0o77) ||| 0o100 < 256 := (frame_small (loc >>> 6)).2
          have hf2 : loc &&& 0o77 < 256 := (frame_small loc).1
          rw [runPunch, ih _ (by simp [punchOrigin, punchObject]; omega)]
          simp only [punchOrigin, punchObject_checksum_eq,
            land255_small _ hf1, land255_small _ hf2,
            dataFrameSum, originFrameSum]
          omega
      | fieldSel f =>
          have hv7 : f &&& 0o007 ≤ 7 := Nat.and_le_right
          have hv : ((f &&& 0o007) <<< 3) ||| 0o300 < 256 := by
            have h2 : (f &&& 0o007) <<< 3 < 2 ^ 8 := by
              rw [Nat.shiftLeft_eq]
              omega
            have h3 : (0o300 : Nat) < 2 ^ 8 := by norm_num
            have := Nat.or_lt_two_pow h2 h3
            simpa using this
          rw [runPunch, ih _ (by simp [punchFieldFrame, punchObject]; omega)]
          simp only [punchFieldFrame, punchObject_checksum_eq,
            land255_small _ hv, dataFrameSum, originFrameSum]
          have hm : (((f &&& 0o007) <<< 3) ||| 0o300) % 65536
              = ((f &&& 0o007) <<< 3) ||| 0o300 := Nat.mod_eq_of_lt (by omega)
          rw [hm]
          omega
      | leader n =>
          rw [runPunch, ih _ (by simpa [punchLeader] using h)]
          simp [punchLeader, dataFrameSum, originFrameSum]

/-- C2 counterexample.  A segment that punches a FIELD-select frame (value
0310) and the word 7200 at location 0: the encoder's checksum word is 58
(072 + 000: FIELD frames are first added by `punchObject` and then
subtracted, netting zero), while the claimed formula, read literally (data
and origin frames minus FIELD frames, modulo 4096), gives 58 - 200 mod 4096
= 3954. -/
theorem bin_checksum_claim_counterexample :
    (checksumWordOf (runPunch initPunch
        [PunchOp.fieldSel 1, PunchOp.word 0 0o7200]) : Int)
      ≠ specClaimedChecksum [PunchOp.fieldSel 1, PunchOp.word 0 0o7200] := by
  decide

/-- C2 amended.  Every emitted BIN segment ends with a checksum word equal,
modulo 4096, to the sum of every data frame and origin frame punched since
the last checksum reset; FIELD-select frames are added when punched and
subtracted right after, so they net to zero and no longer appear in the
formula.  In addition, when binary data has been output, `punchChecksum`
appends exactly the two frames encoding that word. -/
theorem bin_segment_checksum (ops : List PunchOp) :
    ((runPunch initPunch ops).binary_data_output = true →
      (punchChecksum false (runPunch initPunch ops)).frames
        = (runPunch initPunch ops).frames
            ++ checksumFrames (runPunch initPunch ops)) ∧
    checksumWordOf (runPunch initPunch ops)
      = (dataFrameSum ops + originFrameSum ops) % 4096 := by
  constructor
  · intro hb
    have hf1 : ((runPunch initPunch ops).checksum >>> 6) &&& 0o77 < 256 :=
      (frame_small _).1
    have hf2 : (runPunch initPunch ops).checksum &&& 0o77 < 256 :=
      (frame_small _).1
    simp [punchChecksum, hb, punchLocObject, punchObject, checksumFrames,
      Nat.land_assoc, land255_small _ hf1, land255_small _ hf2]
  · have hc := runPunch_checksum ops initPunch (by simp [initPunch])
    have hcc : (runPunch initPunch ops).checksum
        = (dataFrameSum ops + originFrameSum ops) % 65536 := by
      simpa [initPunch] using hc
    rw [checksumWordOf, hcc]
    have h63 : ∀ a : Nat, a &&& 0o77 = a % 64 := land63
    rw [h63, h63, Nat.shiftRight_eq_div_pow]
    have : (2 : Nat) ^ 6 = 64 := by norm_num
    rw [this]
    omega

/-- Witness for `bin_segment_checksum` at the counterexample's concrete
segment, discharging the `binary_data_output` hypothesis there. -/
theorem bin_segment_checksum_witness :
    (runPunch initPunch [PunchOp.fieldSel 1, PunchOp.word 0 0o7200]).binary_data_output = true ∧
    (punchChecksum false (runPunch initPunch [PunchOp.fieldSel 1, PunchOp.word 0 0o7200])).frames
      = (runPunch initPunch [PunchOp.fieldSel 1, PunchOp.word 0 0o7200]).frames
          ++ checksumFrames (runPunch initPunch [PunchOp.fieldSel 1, PunchOp.word 0 0o7200]) ∧
    checksumWordOf (runPunch initPunch [PunchOp.fieldSel 1, PunchOp.word 0 0o7200])
      = (dataFrameSum [PunchOp.fieldSel 1, PunchOp.word 0 0o7200]
          + originFrameSum [PunchOp.fieldSel 1, PunchOp.word 0 0o7200]) % 4096 :=
  ⟨by decide,
   (bin_segment_checksum [PunchOp.fieldSel 1, PunchOp.word 0 0o7200]).1 (by decide),
   (bin_segment_checksum [PunchOp.fieldSel 1, PunchOp.word 0 0o7200]).2⟩

/-- C7 counterexample.  The claim states that origin frames are not added
to the running checksum, so punching an origin would leave the checksum
unchanged; on the code `punchOrigin` routes both origin frames through
`punchObject`, which adds them (origin 0200 contributes frame 0102). -/
theorem origin_frames_added_to_checksum :
    (punchOrigin initPunch 0o200).checksum ≠ initPunch.checksum := by
  decide

/-- C7 amended.  Every frame punched through `punchObject` - data frames
and origin frames alike - is added as an unsigned 8-bit value into the
running checksum accumulator; leader frames are written directly by
`punchLeader` and bypass the checksum.  (FIELD-select frames also pass
through `punchObject` and are added, then subtracted back by the FIELD
case; see the C2 theorems.) -/
theorem punch_checksum_accounting (st : PunchState) (v loc n : Nat) :
    (punchObject st v).checksum = (st.checksum + (v &&& 0o377)) % 65536 ∧
    (punchOrigin st loc).checksum
      = (st.checksum + ((((loc >>> 6) &&& 0o77) ||| 0o100) + (loc &&& 0o77)))
          % 65536 ∧
    (punchLeader st n).checksum = st.checksum := by
  refine ⟨rfl, ?_, rfl⟩
  have hf1 : ((loc >>> 6) &&& 0o77) ||| 0o100 < 256 := (frame_small (loc >>> 6)).2
  have hf2 : loc &&& 0o77 < 256 := (frame_small loc).1
  simp only [punchOrigin, punchObject_checksum_eq,
    land255_small _ hf1, land255_small _ hf2]
  omega



/-! ## 16-bit machine words

The assembler stores addresses and values in `WORD16` (C `short int`).
A value is embedded as an `Int`; the C bitwise operators, which act on the
two's complement representation, are embedded by converting to the 16-bit
bit pattern, operating on `Nat`, and converting back.  All operands the
claims touch lie within the 16-bit range, where C's int-width intermediate
results coincide with these 16-bit operations. -/

/-- The 16-bit two's complement pattern of a machine word. -/
def w16 (x : Int) : Nat := (x % 65536).toNat

/-- The machine word with the given 16-bit pattern. -/
def ofW16 (p : Nat) : Int := if p < 32768 then (p : Int) else (p : Int) - 65536

/-- C `&` on 16-bit words. -/
def wand (a b : Int) : Int := ofW16 (w16 a &&& w16 b)

/-- C `|` on 16-bit words. -/
def wor (a b : Int) : Int := ofW16 (w16 a ||| w16 b)

/-- C `<<` followed by a store into a 16-bit word. -/
def wshl (a : Int) (n : Nat) : Int := ofW16 ((w16 a <<< n) % 65536)

/-- C `>>` (arithmetic shift) on a 16-bit word: floor division by 2^n. -/
def wshr (a : Int) (n : Nat) : Int := Int.fdiv a (2 ^ n)

/-- A C int expression stored back into a 16-bit word (wrap on overflow). -/
def w16wrap (x : Int) : Int := ofW16 (w16 x)

/-! ## Literal pools (struct lpool_t, lines 281-287) -/

/-- Literal pool record: the one-shot `error` flag, the high-water mark
`loc`, and the 128-word array `pool`.  The array is embedded as a function
from `Int` so that the source's unguarded `pool[p->loc]` accesses keep
their meaning even when `loc` leaves the array bounds. -/
structure LPOOL_T where
  error : Bool
  loc : Int
  pool : Int → Int

/-- Engine state for the expression evaluator, literal pools, pseudo-op
cases and origin handling: the location counters, relocation offset, field,
modes, per-line error flag, the two pools, and the frames written to the
object file.  (Frames are written here as the machine words the source
passes to the frame-level encoder, whose byte-exact behaviour is modelled
separately above.) -/
structure MachState where
  clc : Int
  fieldlc : Int
  reloc : Int
  field : Int
  rim_mode : Bool
  error_in_line : Bool
  literals_on : Bool
  indirect_generated : Bool
  cp : LPOOL_T
  pz : LPOOL_T
  frames : List Int

/-- The scan loop of `insertLiteral` (lines 2696-2700):
`ix = PAGE_SIZE-1; while( ix >= p->loc && p->pool[ix] != value ) ix--;`.
The fuel argument is the number of candidate indices left; the call site
uses 128, so the first examined index is 127.  The base value -1 is the
exit value reached after walking below index 0, which agrees with the loop
guard whenever `loc` is nonnegative (the only states the source can reach
without already having corrupted the pool). -/
def scanLoop (pool : Int → Int) (loc value : Int) : Nat → Int
  | 0 => -1
  | Nat.succ k =>
      if loc ≤ (k : Int) ∧ pool (k : Int) ≠ value then scanLoop pool loc value k
      else (k : Int)

/-- The body of `insertLiteral` (lines 2695-2709) acting on the selected
pool `p`: scan for the value from the top down; if not found, decrement
`loc` and store the value there.  Returns the updated pool and the index
returned to the caller. -/
def poolInsert (p : LPOOL_T) (value : Int) : LPOOL_T × Int :=
  let ix := scanLoop p.pool p.loc value 128
  if ix < p.loc then
    ({ error := p.error, loc := p.loc - 1
       pool := fun i => if i = p.loc - 1 then value else p.pool i }, p.loc - 1)
  else (p, ix)

/-- Embedding of `insertLiteral` (lines 2681-2710).  `useCp` tells which
pool the caller passed (`&cp` when true, `&pz` when false); when the
current location counter sits on page zero the source redirects to the
page-zero pool regardless (lines 2690-2693). -/
def insertLiteral (st : MachState) (useCp : Bool) (value : Int) :
    MachState × Int :=
  if wand st.clc 0o7600 = 0 ∨ useCp = false then
    let r := poolInsert st.pz value
    ({ st with pz := r.1 }, r.2)
  else
    let r := poolInsert st.cp value
    ({ st with cp := r.1 }, r.2)

/-- Number of live pool slots (indices from `loc` up to 127) holding the
value `v`. -/
def liveCount (p : LPOOL_T) (v : Int) : Nat :=
  ((Finset.range 128).filter
    (fun k : Nat => p.loc ≤ (k : Int) ∧ p.pool (k : Int) = v)).card

/-- Helper: when the value is absent from the live region, the scan loop
runs past the bottom of the region and stops at `loc - 1`. -/
theorem scanLoop_notFound (pool : Int → Int) (loc value : Int) :
    ∀ n : Nat, loc ≤ (n : Int) → 0 ≤ loc →
    (∀ k : Nat, k < n → loc ≤ (k : Int) → pool (k : Int) ≠ value) →
    scanLoop pool loc value n = loc - 1 := by
  intro n
  induction n with
  | zero =>
      intro h1 h2 _
      have : loc = 0 := le_antisymm (by exact_mod_cast h1) h2
      simp [scanLoop, this]
  | succ k ih =>
      intro h1 h2 habs
      by_cases hk : loc ≤ (k : Int)
      · rw [scanLoop, if_pos ⟨hk, habs k (Nat.lt_succ_self k) hk⟩]
        exact ih hk h2 (fun j hj => habs j (Nat.lt_succ_of_lt hj))
      · have : loc = (k : Int) + 1 := by
          push_cast at h1
          omega
        rw [scanLoop, if_neg (by tauto)]
        omega

/-- Helper: when the value occurs at a live index `k0` and nowhere above
it, the scan loop stops exactly at `k0`. -/
theorem scanLoop_found (pool : Int → Int) (loc value : Int) :
    ∀ n k0 : Nat, k0 < n → loc ≤ (k0 : Int) → pool (k0 : Int) = value →
    (∀ k : Nat, k0 < k → k < n → loc ≤ (k : Int) → pool (k : Int) ≠ value) →
    scanLoop pool loc value n = (k0 : Int) := by
  intro n
  induction n with
  | zero => intro k0 h; omega
  | succ k ih =>
      intro k0 hk0 hle hv habove
      by_cases he : k0 = k
      · subst he
        rw [scanLoop, if_neg (by simp [hv])]
      · have hk0k : k0 < k := by omega
        have hlek : loc ≤ (k : Int) := le_trans hle (by exact_mod_cast Nat.le_of_lt hk0k)
        have hne : pool (k : Int) ≠ value :=
          habove k hk0k (Nat.lt_succ_self k) hlek
        rw [scanLoop, if_pos ⟨hlek, hne⟩]
        exact ih k0 hk0k hle hv
          (fun j hj hjk hlj => habove j hj (Nat.lt_succ_of_lt hjk) hlj)

/-- Helper: `poolInsert` on a pool whose live region does not hold the
value decrements `loc` and stores the value there. -/
theorem poolInsert_fresh (p : LPOOL_T) (v : Int) (h0 : 0 ≤ p.loc)
    (h128 : p.loc ≤ 128)
    (habs : ∀ k : Nat, k < 128 → p.loc ≤ (k : Int) → p.pool (k : Int) ≠ v) :
    poolInsert p v =
      ({ error := p.error, loc := p.loc - 1
         pool := fun i => if i = p.loc - 1 then v else p.pool i }, p.loc - 1) := by
  have hscan : scanLoop p.pool p.loc v 128 = p.loc - 1 :=
    scanLoop_notFound p.pool p.loc v 128 (by exact_mod_cast h128) h0 habs
  rw [poolInsert]
  simp only [hscan]
  rw [if_pos (by omega)]

/-- Helper: `poolInsert` on a pool holding the value at the unique live
index `k0` returns that index and leaves the pool untouched. -/
theorem poolInsert_present (p : LPOOL_T) (v : Int) (k0 : Nat) (hk : k0 < 128)
    (hle : p.loc ≤ (k0 : Int)) (hv : p.pool (k0 : Int) = v)
    (habove : ∀ k : Nat, k0 < k → k < 128 → p.loc ≤ (k : Int) →
      p.pool (k : Int) ≠ v) :
    poolInsert p v = (p, (k0 : Int)) := by
  have hscan : scanLoop p.pool p.loc v 128 = (k0 : Int) :=
    scanLoop_found p.pool p.loc v 128 k0 hk hle hv habove
  rw [poolInsert]
  simp only [hscan]
  rw [if_neg (by omega)]

/-- Helper: unpack `liveCount p v = 0` into pointwise absence. -/
theorem liveCount_zero_elim (p : LPOOL_T) (v : Int) (h : liveCount p v = 0) :
    ∀ k : Nat, k < 128 → p.loc ≤ (k : Int) → p.pool (k : Int) ≠ v := by
  intro k hk hle hv
  have hmem : k ∈ (Finset.range 128).filter
      (fun k : Nat => p.loc ≤ (k : Int) ∧ p.pool (k : Int) = v) := by
    simp only [Finset.mem_filter, Finset.mem_range]
    exact ⟨hk, hle, hv⟩
  unfold liveCount at h
  rw [Finset.card_eq_zero] at h
  rw [h] at hmem
  exact absurd hmem (Finset.not_mem_empty k)

/-- Helper: unpack `liveCount p v = 1` into a unique live occurrence. -/
theorem liveCount_one_elim (p : LPOOL_T) (v : Int) (h : liveCount p v = 1) :
    ∃ k0 : Nat, k0 < 128 ∧ p.loc ≤ (k0 : Int) ∧ p.pool (k0 : Int) = v ∧
      ∀ k : Nat, k < 128 → p.loc ≤ (k : Int) → p.pool (k : Int) = v →
        k = k0 := by
  unfold liveCount at h
  rw [Finset.card_eq_one] at h
  obtain ⟨a, ha⟩ := h
  have hmem : a ∈ (Finset.range 128).filter
      (fun k : Nat => p.loc ≤ (k : Int) ∧ p.pool (k : Int) = v) := by
    rw [ha]
    exact Finset.mem_singleton_self a
  simp only [Finset.mem_filter, Finset.mem_range] at hmem
  refine ⟨a, hmem.1, hmem.2.1, hmem.2.2, ?_⟩
  intro k hk hle hv
  have hmk : k ∈ (Finset.range 128).filter
      (fun k : Nat => p.loc ≤ (k : Int) ∧ p.pool (k : Int) = v) := by
    simp only [Finset.mem_filter, Finset.mem_range]
    exact ⟨hk, hle, hv⟩
  rw [ha] at hmk
  exact Finset.mem_singleton.mp hmk

/-- Helper: after a fresh insertion into a pool with room (`1 ≤ loc`), the
value occurs exactly once in the live region. -/
theorem liveCount_after_fresh (p : LPOOL_T) (v : Int) (h1 : 1 ≤ p.loc)
    (h128 : p.loc ≤ 128)
    (habs : ∀ k : Nat, k < 128 → p.loc ≤ (k : Int) → p.pool (k : Int) ≠ v) :
    liveCount (poolInsert p v).1 v = 1 := by
  rw [poolInsert_fresh p v (by omega) h128 habs]
  unfold liveCount
  rw [Finset.card_eq_one]
  refine ⟨(p.loc - 1).toNat, ?_⟩
  ext k
  simp only [Finset.mem_filter, Finset.mem_range, Finset.mem_singleton]
  constructor
  · rintro ⟨hk, hle, hpool⟩
    by_cases he : (k : Int) = p.loc - 1
    · omega
    · rw [if_neg he] at hpool
      exact absurd hpool (habs k hk (by omega))
  · rintro rfl
    refine ⟨by omega, by omega, ?_⟩
    rw [if_pos (by omega)]

/-! ## MRI address resolution (getExprs, lines 1270-1317) -/

/-- Constant `ADDRESS_FIELD` (line 172). -/
def ADDRESS_FIELD : Int := 0o177

/-- Constant `INDIRECT_BIT` (line 174). -/
def INDIRECT_BIT : Int := 0o400

/-- Constant `PAGE_BIT` (line 177). -/
def PAGE_BIT : Int := 0o200

/-- Diagnostics the MRI address resolution can raise. -/
inductive MriErr where
  | illegal_indirect
  | illegal_reference
deriving DecidableEq, Repr

/-- Embedding of the address arm of `getExprs` (lines 1281-1316): `value`
is the accumulated MRI word, `temp` the operand value already masked to 12
bits (line 1265).  Page-zero operands are OR-ed in directly; current-page
operands contribute `PAGE_BIT` and their in-page offset; otherwise the
reference is off-page: with the indirect bit already set, the
`illegal_indirect` diagnostic; with literal generation on, an entry in the
current-page literal pool and the operand `0600 | index` with the
`indirect_generated` mark; with literal generation off, the
`illegal_reference` diagnostic. -/
def mriResolve (st : MachState) (value temp : Int) :
    MachState × Int × Option MriErr :=
  if temp < 0o200 then (st, wor value temp, none)
  else if wand (st.fieldlc + st.reloc) 0o7600 ≤ temp ∧
      temp ≤ wor (st.fieldlc + st.reloc) 0o177 then
    (st, wor value (wor PAGE_BIT (wand temp ADDRESS_FIELD)), none)
  else if wand value INDIRECT_BIT = INDIRECT_BIT then
    (st, value, some MriErr.illegal_indirect)
  else if st.literals_on then
    let r := insertLiteral st true temp
    ({ r.1 with indirect_generated := true },
     wor value (wor 0o600 r.2), none)
  else
    (st, wor value (wand temp 0o177), some MriErr.illegal_reference)

/-- Helper: with the current location counter off page zero, a caller
passing the current-page pool really operates on `cp`. -/
theorem insertLiteral_cp (st : MachState) (v : Int)
    (hnotpz : wand st.clc 0o7600 ≠ 0) :
    insertLiteral st true v
      = ({ st with cp := (poolInsert st.cp v).1 }, (poolInsert st.cp v).2) := by
  rw [insertLiteral, if_neg]
  simp [hnotpz]

/-- C3.  Resolving an MRI against an off-page operand `temp` (at least
0200, outside the current page) with literal generation on, the indirect
bit of the accumulated value clear, the current location counter off page
zero, and a well-formed current-page pool (room available, the operand
present at most once) raises no diagnostic, sets the `indirect_generated`
mark, leaves exactly one live pool entry holding the operand, ORs
`0600 | index` into the value where the returned index holds the operand,
and reuses the pool untouched when the operand was already present. -/
theorem mri_offpage_literal (st : MachState) (value temp : Int)
    (hlit : st.literals_on = true)
    (hnotpz : wand st.clc 0o7600 ≠ 0)
    (hind : wand value INDIRECT_BIT ≠ INDIRECT_BIT)
    (hlo : ¬ temp < 0o200)
    (hoff : ¬ (wand (st.fieldlc + st.reloc) 0o7600 ≤ temp ∧
      temp ≤ wor (st.fieldlc + st.reloc) 0o177))
    (hloc1 : 1 ≤ st.cp.loc) (hloc2 : st.cp.loc ≤ 128)
    (hdup : liveCount st.cp temp ≤ 1) :
    (mriResolve st value temp).2.2 = none ∧
    (mriResolve st value temp).1.indirect_generated = true ∧
    liveCount (mriResolve st value temp).1.cp temp = 1 ∧
    (mriResolve st value temp).2.1
      = wor value (wor 0o600 (insertLiteral st true temp).2) ∧
    0 ≤ (insertLiteral st true temp).2 ∧
    (insertLiteral st true temp).2 < 128 ∧
    (mriResolve st value temp).1.cp.pool (insertLiteral st true temp).2
      = temp ∧
    (liveCount st.cp temp = 1 →
      (mriResolve st value temp).1.cp.loc = st.cp.loc ∧
      (mriResolve st value temp).1.cp.pool = st.cp.pool) := by
  have hres : mriResolve st value temp
      = ({ (insertLiteral st true temp).1 with indirect_generated := true },
         wor value (wor 0o600 (insertLiteral st true temp).2), none) := by
    rw [mriResolve, if_neg hlo, if_neg hoff, if_neg hind, if_pos hlit]
  have hins := insertLiteral_cp st temp hnotpz
  rcases Nat.le_one_iff_eq_zero_or_eq_one.mp hdup with hc | hc
  · -- the operand is absent: a fresh slot is taken at loc - 1
    have habs := liveCount_zero_elim st.cp temp hc
    have hpi := poolInsert_fresh st.cp temp (by omega) hloc2 habs
    refine ⟨by rw [hres], by rw [hres], ?_, by rw [hres], ?_, ?_, ?_, ?_⟩
    · rw [hres]
      simp only [hins]
      exact liveCount_after_fresh st.cp temp hloc1 hloc2 habs
    · simp only [hins, hpi]
      omega
    · simp only [hins, hpi]
      omega
    · rw [hres]
      simp only [hins, hpi]
      simp
    · intro h1
      rw [hc] at h1
      exact absurd h1 (by omega)
  · -- the operand is present at a unique live index: it is reused
    obtain ⟨k0, hk0, hlek0, hvk0, huniq⟩ := liveCount_one_elim st.cp temp hc
    have hpi := poolInsert_present st.cp temp k0 hk0 hlek0 hvk0
      (fun k hgt hk hle hv => absurd (huniq k hk hle hv) (by omega))
    refine ⟨by rw [hres], by rw [hres], ?_, by rw [hres], ?_, ?_, ?_, ?_⟩
    · rw [hres]
      simp only [hins, hpi]
      exact hc
    · simp only [hins, hpi]
      omega
    · simp only [hins, hpi]
      exact_mod_cast hk0
    · rw [hres]
      simp only [hins, hpi]
      exact hvk0
    · intro _
      rw [hres]
      simp only [hins, hpi]
      simp

/-- A concrete engine state: location counter 0400 (field 0), relocation
zero, literal generation on, BIN mode, both pools empty. -/
def mach0 : MachState :=
  { clc := 0o400, fieldlc := 0o400, reloc := 0, field := 0
    rim_mode := false, error_in_line := false, literals_on := true
    indirect_generated := false
    cp := { error := false, loc := 128, pool := fun _ => 0 }
    pz := { error := false, loc := 128, pool := fun _ => 0 }
    frames := [] }

/-- Witness for `mri_offpage_literal`: resolving TAD (01000) against the
off-page operand 01234 from location 0400 in the state `mach0`. -/
theorem mri_offpage_literal_witness :
    (mach0.literals_on = true ∧ wand mach0.clc 0o7600 ≠ 0 ∧
     wand 0o1000 INDIRECT_BIT ≠ INDIRECT_BIT ∧ ¬ (0o1234 : Int) < 0o200 ∧
     ¬ (wand (mach0.fieldlc + mach0.reloc) 0o7600 ≤ 0o1234 ∧
        (0o1234 : Int) ≤ wor (mach0.fieldlc + mach0.reloc) 0o177) ∧
     1 ≤ mach0.cp.loc ∧ mach0.cp.loc ≤ 128 ∧
     liveCount mach0.cp 0o1234 ≤ 1) ∧
    ((mriResolve mach0 0o1000 0o1234).2.2 = none ∧
     (mriResolve mach0 0o1000 0o1234).1.indirect_generated = true ∧
     liveCount (mriResolve mach0 0o1000 0o1234).1.cp 0o1234 = 1 ∧
     (mriResolve mach0 0o1000 0o1234).2.1
       = wor 0o1000 (wor 0o600 (insertLiteral mach0 true 0o1234).2) ∧
     0 ≤ (insertLiteral mach0 true 0o1234).2 ∧
     (insertLiteral mach0 true 0o1234).2 < 128 ∧
     (mriResolve mach0 0o1000 0o1234).1.cp.pool
         (insertLiteral mach0 true 0o1234).2 = 0o1234 ∧
     (liveCount mach0.cp 0o1234 = 1 →
       (mriResolve mach0 0o1000 0o1234).1.cp.loc = mach0.cp.loc ∧
       (mriResolve mach0 0o1000 0o1234).1.cp.pool = mach0.cp.pool)) :=
  ⟨⟨rfl, by decide, by decide, by decide, by decide, by decide, by decide,
    by decide⟩,
   mri_offpage_literal mach0 0o1000 0o1234 rfl (by decide) (by decide)
     (by decide) (by decide) (by decide) (by decide) (by decide)⟩

/-! ## C8: the literal pool high-water mark under repeated insertion -/

/-- A sequence of `insertLiteral` calls on the current-page pool, as issued
by a program whose statements each generate one current-page literal. -/
def insertMany (st : MachState) (vs : List Int) : MachState :=
  vs.foldl (fun s v => (insertLiteral s true v).1) st

/-- The distinct literal values 1, 2, ..., n. -/
def literalVals (n : Nat) : List Int :=
  (List.range n).map (fun j : Nat => (j : Int) + 1)

/-- Helper: peeling the last of n+1 literal values. -/
theorem literalVals_succ (n : Nat) :
    literalVals (n + 1) = literalVals n ++ [(n : Int) + 1] := by
  simp [literalVals, List.range_succ]

/-- Helper: a fresh insertion with the location counter off page zero
decrements the current-page high-water mark and stores the value there,
with no other change.  There is no guard: this holds even when `loc` is
already 0 and the store lands at index -1, outside the array. -/
theorem insertLiteral_fresh_step (s : MachState) (v : Int)
    (hnotpz : wand s.clc 0o7600 ≠ 0) (h0 : 0 ≤ s.cp.loc)
    (h128 : s.cp.loc ≤ 128)
    (habs : ∀ k : Nat, k < 128 → s.cp.loc ≤ (k : Int) →
      s.cp.pool (k : Int) ≠ v) :
    (insertLiteral s true v).1 =
      { s with cp :=
          { error := s.cp.error, loc := s.cp.loc - 1,
            pool := fun i => if i = s.cp.loc - 1 then v else s.cp.pool i } } := by
  rw [insertLiteral_cp s v hnotpz, poolInsert_fresh s.cp v h0 h128 habs]

/-- Helper: inserting the distinct values 1, 2, ..., n from the state
`mach0` drives the current-page high-water mark down to `128 - n` and
fills the slots from the top with those values. -/
theorem insertMany_invariant : ∀ n : Nat, n ≤ 129 →
    ((insertMany mach0 (literalVals n)).clc = mach0.clc ∧
     (insertMany mach0 (literalVals n)).cp.loc = 128 - (n : Int)) ∧
    ∀ k : Nat, k < 128 →
      (insertMany mach0 (literalVals n)).cp.pool (k : Int)
        = if 128 - (n : Int) ≤ (k : Int) then 128 - (k : Int) else 0 := by
  intro n
  induction n with
  | zero =>
      intro _
      refine ⟨⟨rfl, rfl⟩, ?_⟩
      intro k hk
      rw [if_neg (by omega)]
      rfl
  | succ n ih =>
      intro hn
      obtain ⟨⟨ihclc, ihloc⟩, ihpool⟩ := ih (by omega)
      have hstep : insertMany mach0 (literalVals (n + 1))
          = (insertLiteral (insertMany mach0 (literalVals n)) true
              ((n : Int) + 1)).1 := by
        rw [literalVals_succ, insertMany, List.foldl_append]
        rfl
      have habs : ∀ k : Nat, k < 128 →
          (insertMany mach0 (literalVals n)).cp.loc ≤ (k : Int) →
          (insertMany mach0 (literalVals n)).cp.pool (k : Int)
            ≠ (n : Int) + 1 := by
        intro k hk hle
        rw [ihloc] at hle
        rw [ihpool k hk, if_pos hle]
        omega
      have hfresh := insertLiteral_fresh_step
        (insertMany mach0 (literalVals n)) ((n : Int) + 1)
        (by rw [ihclc]; decide) (by rw [ihloc]; omega)
        (by rw [ihloc]; omega) habs
      rw [hstep, hfresh]
      refine ⟨⟨ihclc, ?_⟩, ?_⟩
      · show (insertMany mach0 (literalVals n)).cp.loc - 1
          = 128 - ((n : Nat) + 1 : Int)
        rw [ihloc]
        ring
      · intro k hk
        show (if (k : Int) = (insertMany mach0 (literalVals n)).cp.loc - 1
            then (n : Int) + 1
            else (insertMany mach0 (literalVals n)).cp.pool (k : Int))
          = if 128 - ((n : Nat) + 1 : Int) ≤ (k : Int) then 128 - (k : Int)
            else 0
        rw [ihloc]
        by_cases hke : (k : Int) = 128 - (n : Int) - 1
        · rw [if_pos hke, if_pos (by omega)]
          omega
        · rw [if_neg hke, ihpool k hk]
          split_ifs <;> omega

/-- C8.  The claim states the invariant `0 ≤ loc ≤ 128` for every input
program.  The code has no capacity guard in `insertLiteral`: a program that
generates 129 distinct current-page literals on one page span (129
statements `(1)`, `(2)`, ..., `(0201)` with literal generation on and no
intervening flush) decrements `loc` from 128 down through 0 to -1, the
129th value being stored at `pool[-1]`, outside the array. -/
theorem literal_pool_loc_underflow :
    (insertMany mach0 (literalVals 129)).cp.loc = -1 ∧
    ¬ (0 : Int) ≤ (insertMany mach0 (literalVals 129)).cp.loc := by
  have h := (insertMany_invariant 129 (le_refl 129)).1.2
  rw [h]
  constructor
  · decide
  · decide

/-! ## Pool flush, collision test, SEGMNT and the origin statement -/

/-- The two machine words `punchOrigin` derives from a location (lines
2583-2584), at the word level of the `MachState` model. -/
def originFramesI (loc : Int) : List Int :=
  [wor (wand (wshr loc 6) 0o77) 0o100, wand loc 0o77]

/-- The words `punchLocObject` emits for one value (lines 2628-2636): an
origin pair first in RIM mode, then the two data halves. -/
def punchLocObjectI (rim : Bool) (loc val : Int) : List Int :=
  (if rim then originFramesI loc else []) ++
    [wand (wshr val 6) 0o77, wand val 0o77]

/-- Embedding of `punchLiteralPool` (lines 2646-2670) specialized to the
current-page pool, the pool every embedded call site flushes: when the
pool is non-empty, punch an origin (BIN mode only) and then each live slot
from `loc` up to 127, and reset the pool (`loc = 0200`, `error` cleared).
The listing output is elided. -/
def punchLiteralPoolM (s : MachState) (lpool_page0 : Int) : MachState :=
  let lpool_page := wand lpool_page0 0o7600
  if s.cp.loc < 0o200 then
    { s with
      frames := s.frames
        ++ (if s.rim_mode then [] else originFramesI (wor s.cp.loc lpool_page))
        ++ ((List.range 128).filter (fun k : Nat => s.cp.loc ≤ (k : Int))).foldr
            (fun k acc =>
              punchLocObjectI s.rim_mode ((k : Int) + lpool_page)
                (s.cp.pool (k : Int)) ++ acc) []
      cp := { error := false, loc := 0o200, pool := s.cp.pool } }
  else s

/-- Embedding of `testForLiteralCollision` (lines 2246-2274): compare the
in-page offset of the location against the matching pool's high-water mark
and latch the pool's one-shot error flag.  The diagnostic text and the
returned flag are elided. -/
def testForLiteralCollisionM (s : MachState) (loc : Int) : MachState :=
  if wand loc 0o7600 = 0 then
    if wand loc 0o177 ≥ s.pz.loc ∧ s.pz.error = false then
      { s with pz := { s.pz with error := true } }
    else s
  else
    if wand loc 0o177 ≥ s.cp.loc ∧ s.cp.error = false then
      { s with cp := { s.cp with error := true } }
    else s

/-- The position of SEGMNT in `enum pseudo_t` (lines 262-268): BANK 0,
BINPUNCH 1, ..., RIMPUNCH 20, SEGMNT 21. -/
def SEGMNT : Int := 21

/-- Embedding of the SEGMNT case of `pseudoOperators` (lines 3589-3607).
`noArg` mirrors `isdone(line[lexstart])`.  With an argument the source
calls `getExpr()` and discards its result (`exprVal` here); the assignment
`clc = ( val & 003 ) << 10;` then reads `val`, which in `pseudoOperators`
is the PSEUDO_T dispatch parameter - for this case the value SEGMNT - not
the argument's value. -/
def segmntCase (s : MachState) (noArg : Bool) (exprVal : Int) : MachState :=
  let s1 := punchLiteralPoolM s (s.clc - 1)
  let s2 :=
    if noArg then
      { s1 with clc := wand s1.clc 0o6000 + 0o2000,
                fieldlc := wand (wand s1.clc 0o6000 + 0o2000) 0o7777 }
    else
      { s1 with clc := wshl (wand SEGMNT 0o003) 10,
                fieldlc := wand (wshl (wand SEGMNT 0o003) 10) 0o7777 }
  let s3 :=
    if s2.rim_mode then s2
    else { s2 with frames := s2.frames ++ originFramesI s2.clc }
  testForLiteralCollisionM s3 s3.clc

/-- Helper: the collision test never moves the location counters. -/
theorem testForLiteralCollisionM_preserves (s : MachState) (loc : Int) :
    (testForLiteralCollisionM s loc).clc = s.clc ∧
    (testForLiteralCollisionM s loc).fieldlc = s.fieldlc := by
  unfold testForLiteralCollisionM
  split_ifs <;> exact ⟨rfl, rfl⟩

/-- C4.  The claim states that `SEGMNT n` sets the in-field portion of the
location counter to `(n & 3) << 10`.  On the code the result never depends
on n: the parsed argument is discarded and the dispatch code of SEGMNT
(21, with `21 & 3 = 1`) is shifted instead, so the location counter becomes
02000 for every argument (clearing the field bits as well); the claim's
formula demands 0 for the argument 0. -/
theorem segmnt_ignores_argument (s : MachState) (n : Int) :
    (segmntCase s false n).clc = 0o2000 ∧
    (segmntCase s false n).fieldlc = 0o2000 := by
  have h1 : wshl (wand SEGMNT 0o003) 10 = 0o2000 := by decide
  have h2 : wand (wshl (wand SEGMNT 0o003) 10) 0o7777 = 0o2000 := by decide
  unfold segmntCase
  simp only [Bool.false_eq_true, if_false, h1, h2]
  constructor
  · rw [(testForLiteralCollisionM_preserves _ _).1]
    split <;> rfl
  · rw [(testForLiteralCollisionM_preserves _ _).2]
    split <;> rfl

/-- Embedding of the origin case of `onePass` (lines 1121-1142), entered
with the state `s` as `getExpr` left it and `v` the expression's value:
compute `newclc = (v & 07777) | field`; when the line has an error, stop;
otherwise flush the current-page pool on a page change, move `clc` and
`fieldlc`, and punch an origin in BIN mode.  The listing call is elided. -/
def starCase (s : MachState) (v : Int) : MachState :=
  let newclc := wor (wand v 0o7777) s.field
  if s.error_in_line then s
  else
    let s1 :=
      if wand newclc 0o7600 ≠ wand s.clc 0o7600 then
        punchLiteralPoolM s (s.clc - 1)
      else s
    let s2 :=
      { s1 with clc := newclc - s1.reloc,
                fieldlc := wand (newclc - s1.reloc) 0o7777 }
    if s2.rim_mode then s2
    else { s2 with frames := s2.frames ++ originFramesI s2.clc }

/-- C10.  When evaluating the expression of an origin statement `*expr`
reported an error (`error_in_line` holds in the state `getExpr` produced),
the origin case leaves the state exactly as it is: `clc` and `fieldlc`
keep their values, no literal pool is flushed, and no origin frame is
punched. -/
theorem star_origin_error_atomic (s : MachState) (v : Int)
    (herr : s.error_in_line = true) :
    starCase s v = s := by
  simp [starCase, herr]

/-- A concrete state whose current line already carries an error. -/
def machErr : MachState := { mach0 with error_in_line := true }

/-- Witness for `star_origin_error_atomic` at the concrete state
`machErr`. -/
theorem star_origin_error_atomic_witness :
    machErr.error_in_line = true ∧ starCase machErr 0 = machErr :=
  ⟨rfl, star_origin_error_atomic machErr 0 rfl⟩

/-! ## TEXT pseudo-op (lines 3609-3651) -/

/-- The packing loop of the TEXT case and its epilogue.  Each character
contributes its low 6 bits (`line[index] & 077`); after every second
character the packed word is punched and the accumulator reset.  After the
loop, a partly filled word is punched shifted into the high half, and an
empty accumulator (`count == 0`) still punches one all-zero word - the
6-bit zero terminator occupying a full word when the string length is
even. -/
def textWords : List Int → Int → Nat → List Int
  | [], pack, count => if count ≠ 0 then [wshl pack 6] else [0]
  | c :: rest, pack, count =>
      let pack2 := wor (wshl pack 6) (wand c 0o77)
      if count + 1 > 1 then pack2 :: textWords rest 0 0
      else textWords rest pack2 (count + 1)

/-- The words the TEXT pseudo-op punches for the characters between the
delimiters. -/
def TEXTwords (chars : List Int) : List Int := textWords chars 0 0

/-- C6 counterexample.  The claim states that `TEXT /AB/` emits exactly
one word, 0102; the code punches a second, all-zero word after it ('A' is
ASCII 65, 'B' is 66). -/
theorem text_ab_not_one_word : TEXTwords [65, 66] ≠ [0o102] := by
  decide

/-- C6 amended.  `TEXT /AB/` emits exactly two words at the current
location: 0102 ('A' and 'B' packed as 6-bit codes 01 and 02) followed by
the all-zero terminator word 0000 that the TEXT case always punches when
the character count is even. -/
theorem text_ab_words : TEXTwords [65, 66] = [0o102, 0] := by
  decide

/-! ## The operator chain of getExpr (lines 1360-1429) -/

/-- One step of the operator chain: the running value `a`, the operator
character, and the value `b` of the `eval()` call that follows it.  The
cases mirror lines 1370-1398: `+ - ^ % & !` with `^` multiply and `%`
divide; the divide (line 1387, `sym_getexpr.val /= (eval())->val`) has no
zero test, so a zero divisor is C undefined behaviour, embedded as `none`.
Arithmetic results are stored back into the 16-bit accumulator. -/
def applyOp (a : Int) (c : Char) (b : Int) : Option Int :=
  match c with
  | '+' => some (w16wrap (a + b))
  | '-' => some (w16wrap (a - b))
  | '^' => some (w16wrap (a * b))
  | '%' => if b = 0 then none else some (w16wrap (Int.tdiv a b))
  | '&' => some (wand a b)
  | '!' => some (wor a b)
  | _ => some a

/-- The left-to-right operator chain of `getExpr`: a first term followed by
operator-term pairs, evaluated with equal precedence. -/
def getExprChain (first : Int) (ops : List (Char × Int)) : Option Int :=
  ops.foldl (fun acc p => acc.bind fun a => applyOp a p.1 p.2) (some first)

/-- The digit-run parser of `eval` (lines 1470-1492): accumulate digits in
the current radix; a digit at or above the radix reports `number_not_radix`
and yields 0. -/
def evalNum (radix : Int) : List Nat → Int → Int
  | [], val => val
  | d :: ds, val =>
      if (d : Int) < radix then evalNum radix ds (w16wrap (val * radix + d))
      else 0

/-- The value of a digit run under the given radix. -/
def evalNumber (radix : Int) (ds : List Nat) : Int := evalNum radix ds 0

/-- C9.  The divide of `getExpr` is an unguarded integer division: a step
`a % b` of the operator chain fails (reaches C undefined behaviour) exactly
when the divisor is zero - there is no check and no error report - and the
source expression `1%0` (digit runs 1 and 0 under radix 8 joined by the
divide operator) reaches that division by zero. -/
theorem divide_unguarded :
    (∀ a b : Int, applyOp a '%' b = none ↔ b = 0) ∧
    getExprChain (evalNumber 8 [1]) [('%', evalNumber 8 [0])] = none := by
  constructor
  · intro a b
    constructor
    · intro h
      by_contra hb
      simp [applyOp, hb] at h
    · intro h
      simp [applyOp, h]
  · decide
